import Mathlib

/-!
Formal model of the portfolio aggregation core of `crypto_portfolio.py`
(class `BinanceManager`): the spot and Simple Earn balance sources, the
price resolver with its five-minute cache, the retry loops around the
Simple Earn REST endpoints, and the validation / dust-filter / sort
pipeline of `get_portfolio_data`.

Decimal amounts (quantities, prices, values, rates) are modelled as
elements of an arbitrary linear ordered commutative ring `K`; the code
only adds, multiplies and compares them.  Timestamps are natural numbers
(seconds, as compared against the 300-second cache TTL).  The network is
modelled by oracles: a ticker function `String → Option K` (`none` means
`get_symbol_ticker` raised) and per-attempt request outcomes for the
signed Simple Earn endpoints.
-/

namespace CryptoPortfolio

section Model

variable (K : Type)

/-- One priced asset position: the dict built by `_get_spot_data`
(lines 190-202), `_get_all_simple_earn_positions` (lines 321-333) and
`_get_simple_earn_asset_positions` (lines 496-508). -/
structure Holding where
  asset : String
  quantity : K
  avg_price : K
  current_price : K
  current_value : K
  total_invested : K
  pnl_percentage : K
  pnl_euro : K
  source : String
  type : String
  apr : K
deriving DecidableEq

/-- One row of the spot account balance list (`account['balances']`). -/
structure Balance where
  asset : String
  free : K
  locked : K
deriving DecidableEq

/-- One row of a Simple Earn position response (`data['rows']`):
`asset`, `totalAmount`, `latestAnnualPercentageRate`. -/
structure EarnRow where
  asset : String
  totalAmount : K
  rate : K
deriving DecidableEq

/-- Outcome of one HTTP attempt against a Simple Earn endpoint:
a 200 response carrying its rows, a non-200 status, or a raised
`requests.exceptions.RequestException`. -/
inductive ReqOutcome where
  | ok (rows : List (EarnRow K))
  | httpError (status : Nat)
  | netError
deriving DecidableEq

variable {K}

/-- An attempt outcome that is not a 200 response (non-200 status or
network error): exactly the cases in which the retry loops continue. -/
def ReqOutcome.isFail : ReqOutcome K → Bool
  | .ok _ => false
  | .httpError _ => true
  | .netError => true

variable (K)

/-- Per-attempt outcomes of the two Simple Earn product-type endpoints
(`FLEXIBLE` and `LOCKED`), indexed by attempt number. -/
structure EndpointOutcomes where
  flexible : Nat → ReqOutcome K
  locked : Nat → ReqOutcome K

/-- The price cache `self._price_cache`: asset symbol mapped to
(price, fetch time).  Newest binding first; `cacheLookup` returns it,
matching overwriting dict assignment. -/
abbrev Cache := List (String × K × Nat)

variable {K}

/-- Lookup in the price cache (`asset in self._price_cache`). -/
def cacheLookup : Cache K → String → Option (K × Nat)
  | [], _ => none
  | (a, p, t) :: rest, asset => if a = asset then some (p, t) else cacheLookup rest asset

/-- Cache write `self._price_cache[asset] = (price, current_time)`. -/
def cacheInsert (c : Cache K) (asset : String) (p : K) (t : Nat) : Cache K :=
  (asset, p, t) :: c

/-- The retry loops at lines 275-350 (bulk, 3 attempts) and 463-519
(targeted, 2 attempts): make up to `n` attempts, stop at the first 200
response and return its rows; retry (after a pause) on a non-200 status
or a network error; after the final failed attempt give up with `none`.
The second component counts the attempts actually made. -/
def retryFetch (f : Nat → ReqOutcome K) : Nat → Nat → Option (List (EarnRow K)) × Nat
  | _, 0 => (none, 0)
  | s, n + 1 =>
    match f s with
    | .ok rows => (some rows, 1)
    | _ =>
      let r := retryFetch f (s + 1) n
      (r.1, r.2 + 1)

/-- The duplicate-removal pass of `_get_earn_data` (lines 241-250):
walk the list, keeping an item only when its asset symbol has not been
seen before. -/
def dedupByAsset : List (Holding K) → List String → List (Holding K)
  | [], _ => []
  | h :: rest, seen =>
    if h.asset ∈ seen then
      dedupByAsset rest seen
    else
      h :: dedupByAsset rest (h.asset :: seen)

/-- The hardcoded list of assets known to sometimes be yield-subscribed
(line 225). -/
def knownAssets : List String :=
  ["ARB", "BNB", "BTC", "C", "ERA", "ETH", "HAEDAL", "HOME", "HUMA", "HYPER",
    "OP", "SOL", "ONDO", "TAO"]

variable [LinearOrderedCommRing K]

/-- The network part of `_get_current_price` (lines 551-572): try the
direct `{asset}USDT` pair; on failure try the `{asset}BTC` pair followed
by `BTCUSDT` and multiply; on total failure return the sentinel 0.0 and
leave the cache unchanged.  The third component counts the
`get_symbol_ticker` network calls made. -/
def fetchPrice (ticker : String → Option K) (c : Cache K) (now : Nat) (asset : String) :
    K × Cache K × Nat :=
  match ticker (asset ++ "USDT") with
  | some p => (p, cacheInsert c asset p now, 1)
  | none =>
    match ticker (asset ++ "BTC") with
    | none => (0, c, 2)
    | some btc_price =>
      match ticker "BTCUSDT" with
      | none => (0, c, 3)
      | some btc_usdt =>
        (btc_price * btc_usdt, cacheInsert c asset (btc_price * btc_usdt) now, 3)

/-- `_get_current_price` (lines 535-576): if a cache entry exists and is
younger than 300 seconds return it verbatim with no network call,
otherwise fetch.  Returns (price, updated cache, network calls made). -/
def get_current_price (ticker : String → Option K) (c : Cache K) (now : Nat) (asset : String) :
    K × Cache K × Nat :=
  match cacheLookup c asset with
  | some (p, t) => if now - t < 300 then (p, c, 0) else fetchPrice ticker c now asset
  | none => fetchPrice ticker c now asset

/-- A cache entry for `asset` exists and is younger than 300 seconds at
time `now` (the condition of the cache hit in lines 546-549). -/
def cacheFresh (c : Cache K) (now : Nat) (asset : String) : Bool :=
  match cacheLookup c asset with
  | some (_, t) => decide (now - t < 300)
  | none => false

/-- The spot holding dict built at lines 190-202. -/
def mkSpotHolding (asset : String) (total price : K) : Holding K :=
  { asset := asset, quantity := total, avg_price := 0, current_price := price,
    current_value := total * price, total_invested := 0, pnl_percentage := 0,
    pnl_euro := 0, source := "Spot", type := "Spot", apr := 0 }

/-- The balance loop of `_get_spot_data` (lines 168-202): skip assets
whose symbol starts with "LD", sum free + locked, skip non-positive
totals, resolve the price, and emit a holding only for a positive
price.  The cache is threaded through the price lookups. -/
def get_spot_data (ticker : String → Option K) (now : Nat) :
    List (Balance K) → Cache K → List (Holding K) × Cache K
  | [], c => ([], c)
  | b :: rest, c =>
    if b.asset.data.take 2 = ['L', 'D'] then
      get_spot_data ticker now rest c
    else
      let total := b.free + b.locked
      if 0 < total then
        let r := get_current_price ticker c now b.asset
        let rec_result := get_spot_data ticker now rest r.2.1
        if 0 < r.1 then
          (mkSpotHolding b.asset total r.1 :: rec_result.1, rec_result.2)
        else
          rec_result
      else
        get_spot_data ticker now rest c

/-- The Simple Earn holding dict built at lines 321-333 (bulk discovery)
and 496-508 (targeted discovery): yield rate is the reported
`latestAnnualPercentageRate` times 100. -/
def mkEarnHolding (asset : String) (amount price rate : K) (ptype : String) : Holding K :=
  { asset := asset, quantity := amount, avg_price := 0, current_price := price,
    current_value := amount * price, total_invested := 0, pnl_percentage := 0,
    pnl_euro := 0, source := "Simple Earn", type := ptype, apr := rate * 100 }

/-- The row loop shared by lines 306-333 and 488-508: for each returned
row with positive `totalAmount`, resolve the price of `sym row` and emit
a holding (with symbol `sym row`) when the price is positive.  Bulk
discovery prices the row's own asset; targeted discovery prices the
queried asset for every row. -/
def processRows (ticker : String → Option K) (now : Nat) (ptype : String)
    (sym : EarnRow K → String) :
    List (EarnRow K) → Cache K → List (Holding K) × Cache K
  | [], c => ([], c)
  | row :: rest, c =>
    if 0 < row.totalAmount then
      let r := get_current_price ticker c now (sym row)
      let rec_result := processRows ticker now ptype sym rest r.2.1
      if 0 < r.1 then
        (mkEarnHolding (sym row) row.totalAmount r.1 row.rate ptype :: rec_result.1,
          rec_result.2)
      else
        rec_result
    else
      processRows ticker now ptype sym rest c

/-- `_get_all_simple_earn_positions` (lines 256-360): for each of the
FLEXIBLE and LOCKED endpoints in that order, retry up to 3 times; on
success process the returned rows (pricing each row's own asset); a
totally failed endpoint contributes nothing and the loop continues with
the other endpoint. -/
def get_all_simple_earn_positions (ticker : String → Option K) (now : Nat)
    (eo : EndpointOutcomes K) (c : Cache K) : List (Holding K) × Cache K :=
  let fpos :=
    match (retryFetch eo.flexible 0 3).1 with
    | some rows => processRows ticker now "Flexible" (fun row => row.asset) rows c
    | none => ([], c)
  let lpos :=
    match (retryFetch eo.locked 0 3).1 with
    | some rows => processRows ticker now "Locked" (fun row => row.asset) rows fpos.2
    | none => ([], fpos.2)
  (fpos.1 ++ lpos.1, lpos.2)

/-- `_get_simple_earn_asset_positions` (lines 444-529): for one asset,
query the FLEXIBLE and LOCKED endpoints in that order with up to 2
attempts each; every emitted holding carries the queried asset symbol
and its price (the row's own asset field is not used). -/
def get_simple_earn_asset_positions (ticker : String → Option K) (now : Nat)
    (eo : EndpointOutcomes K) (asset : String) (c : Cache K) :
    List (Holding K) × Cache K :=
  let fpos :=
    match (retryFetch eo.flexible 0 2).1 with
    | some rows => processRows ticker now "Flexible" (fun _ => asset) rows c
    | none => ([], c)
  let lpos :=
    match (retryFetch eo.locked 0 2).1 with
    | some rows => processRows ticker now "Locked" (fun _ => asset) rows fpos.2
    | none => ([], fpos.2)
  (fpos.1 ++ lpos.1, lpos.2)

/-- The targeted-discovery loop of `_get_earn_data` (lines 232-239):
look up each missing asset in turn and concatenate the results. -/
def targetedSearch (ticker : String → Option K) (now : Nat)
    (targeted : String → EndpointOutcomes K) :
    List String → Cache K → List (Holding K) × Cache K
  | [], c => ([], c)
  | a :: rest, c =>
    let pos := get_simple_earn_asset_positions ticker now (targeted a) a c
    let more := targetedSearch ticker now targeted rest pos.2
    (pos.1 ++ more.1, more.2)

/-- `_get_earn_data` (lines 211-254): bulk discovery first, then the
targeted search over the known assets that bulk discovery did not
report, then duplicate removal by asset symbol keeping the first
occurrence. -/
def get_earn_data (ticker : String → Option K) (now : Nat) (bulk : EndpointOutcomes K)
    (targeted : String → EndpointOutcomes K) (c : Cache K) :
    List (Holding K) × Cache K :=
  let allpos := get_all_simple_earn_positions ticker now bulk c
  let found := allpos.1.map (fun h => h.asset)
  let missing := knownAssets.filter (fun a => decide (a ∉ found))
  let bpos := targetedSearch ticker now targeted missing allpos.2
  (dedupByAsset (allpos.1 ++ bpos.1) [], bpos.2)

/-- Insertion step of the stable descending sort: place `x` before the
first element whose value it reaches or exceeds, so among equal values
the earlier input element stays first. -/
def insertByValueDesc (x : Holding K) : List (Holding K) → List (Holding K)
  | [] => [x]
  | y :: ys =>
    if y.current_value ≤ x.current_value then
      x :: y :: ys
    else
      y :: insertByValueDesc x ys

/-- The stable descending sort by `current_value` at line 144
(`filtered_data.sort(key=..., reverse=True)`; Python list sort is
stable, and `reverse=True` keeps equal elements in input order). -/
def sortByValueDesc : List (Holding K) → List (Holding K)
  | [] => []
  | x :: xs => insertByValueDesc x (sortByValueDesc xs)

/-- The validation check of `get_portfolio_data` step 3 (lines 121-138):
all required fields are present (guaranteed by the record type, since
every dict built by the sources carries every field) and quantity,
price and value are strictly positive. -/
def validHolding (h : Holding K) : Bool :=
  decide (0 < h.quantity) && decide (0 < h.current_price) && decide (0 < h.current_value)

/-- Steps 1-4 of `get_portfolio_data` (lines 105-144) before the sort:
concatenate the spot and Simple Earn holdings (spot first; a `none`
account models a `get_account` failure, which `_get_spot_data` absorbs
into an empty list), validate, and keep only holdings of value at least
1.0. -/
def portfolioBeforeSort (ticker : String → Option K) (now : Nat)
    (account : Option (List (Balance K))) (bulk : EndpointOutcomes K)
    (targeted : String → EndpointOutcomes K) (c : Cache K) : List (Holding K) :=
  let spot :=
    match account with
    | some balances => get_spot_data ticker now balances c
    | none => ([], c)
  let earn := get_earn_data ticker now bulk targeted spot.2
  ((spot.1 ++ earn.1).filter validHolding).filter (fun h => decide ((1 : K) ≤ h.current_value))

/-- `get_portfolio_data` (lines 105-159): the validated, dust-filtered
union of both silos, sorted by value descending. -/
def get_portfolio_data (ticker : String → Option K) (now : Nat)
    (account : Option (List (Balance K))) (bulk : EndpointOutcomes K)
    (targeted : String → EndpointOutcomes K) (c : Cache K) : List (Holding K) :=
  sortByValueDesc (portfolioBeforeSort ticker now account bulk targeted c)

end Model

/-! Concrete fixtures used by counterexamples and witnesses, over `K := ℤ`. -/

/-- A ticker oracle on which every symbol pair trades at 100. -/
def tickerAll100 : String → Option ℤ := fun _ => some 100

/-- A ticker oracle on which every lookup raises. -/
def tickerNone : String → Option ℤ := fun _ => none

/-- Endpoint outcomes in which every attempt hits a network error. -/
def failEndpoints : EndpointOutcomes ℤ where
  flexible := fun _ => .netError
  locked := fun _ => .netError

/-- Targeted discovery on which every per-asset lookup fails. -/
def targetedFail : String → EndpointOutcomes ℤ := fun _ => failEndpoints

/-- Bulk discovery reporting a single flexible BTC position of amount 2. -/
def bulkBTCOnly : EndpointOutcomes ℤ where
  flexible := fun _ => .ok [{ asset := "BTC", totalAmount := 2, rate := 0 }]
  locked := fun _ => .ok []

/-- The spot balance list holding one BTC. -/
def spotBTC : List (Balance ℤ) := [{ asset := "BTC", free := 1, locked := 0 }]

/-- A sample holding of a given asset and value, for the reconciliation
example of the spec (unit price 1, so value = quantity). -/
def exH (a : String) (v : ℤ) : Holding ℤ := mkEarnHolding a v 1 0 "Flexible"

/-- A ticker oracle on which the direct XYZUSDT pair is missing but both
bridge hops trade: XYZBTC at 3 and BTCUSDT at 7. -/
def tickerBridge : String → Option ℤ := fun s =>
  if s = "XYZBTC" then some 3 else if s = "BTCUSDT" then some 7 else none

/-- Endpoint outcomes on which the flexible endpoint always fails while
the locked endpoint reports one ETH position. -/
def flexFailEO : EndpointOutcomes ℤ where
  flexible := fun _ => .netError
  locked := fun _ => .ok [{ asset := "ETH", totalAmount := 1, rate := 0 }]

section Lemmas

variable {K : Type}

/-! Lemmas about the stable descending sort. -/

variable [LinearOrderedCommRing K]

lemma mem_insertByValueDesc {x z : Holding K} {l : List (Holding K)} :
    z ∈ insertByValueDesc x l ↔ z = x ∨ z ∈ l := by
  induction l with
  | nil => simp [insertByValueDesc]
  | cons y ys ih =>
    by_cases h : y.current_value ≤ x.current_value
    · simp [insertByValueDesc, h]
    · simp only [insertByValueDesc, if_neg h, List.mem_cons, ih]
      tauto

lemma pairwise_insertByValueDesc {x : Holding K} {l : List (Holding K)}
    (hl : l.Pairwise (fun a b => b.current_value ≤ a.current_value)) :
    (insertByValueDesc x l).Pairwise (fun a b => b.current_value ≤ a.current_value) := by
  induction l with
  | nil => simp [insertByValueDesc]
  | cons y ys ih =>
    rcases List.pairwise_cons.mp hl with ⟨hy, hys⟩
    by_cases h : y.current_value ≤ x.current_value
    · simp only [insertByValueDesc, if_pos h]
      refine List.pairwise_cons.mpr ⟨?_, hl⟩
      intro z hz
      rcases List.mem_cons.mp hz with rfl | hz
      · exact h
      · exact le_trans (hy z hz) h
    · simp only [insertByValueDesc, if_neg h]
      refine List.pairwise_cons.mpr ⟨?_, ih hys⟩
      intro z hz
      rcases mem_insertByValueDesc.mp hz with rfl | hz
      · exact le_of_not_le h
      · exact hy z hz

lemma pairwise_sortByValueDesc (l : List (Holding K)) :
    (sortByValueDesc l).Pairwise (fun a b => b.current_value ≤ a.current_value) := by
  induction l with
  | nil => simp [sortByValueDesc]
  | cons x xs ih => exact pairwise_insertByValueDesc ih

lemma filter_insertByValueDesc (v : K) (x : Holding K) (l : List (Holding K)) :
    (insertByValueDesc x l).filter (fun h => decide (h.current_value = v)) =
      if x.current_value = v then
        x :: l.filter (fun h => decide (h.current_value = v))
      else
        l.filter (fun h => decide (h.current_value = v)) := by
  induction l with
  | nil =>
    by_cases hx : x.current_value = v <;>
      simp [insertByValueDesc, hx, List.filter_cons]
  | cons y ys ih =>
    by_cases h : y.current_value ≤ x.current_value
    · simp only [insertByValueDesc, if_pos h]
      by_cases hx : x.current_value = v <;> simp [List.filter_cons, hx]
    · simp only [insertByValueDesc, if_neg h]
      by_cases hx : x.current_value = v
      · have hy : ¬ y.current_value = v := by
          intro hyv
          exact h (le_of_eq (hx ▸ hyv))
        simp [List.filter_cons, hy, ih, hx]
      · by_cases hy : y.current_value = v <;>
          simp [List.filter_cons, hy, ih, hx]

lemma filter_sortByValueDesc (v : K) (l : List (Holding K)) :
    (sortByValueDesc l).filter (fun h => decide (h.current_value = v)) =
      l.filter (fun h => decide (h.current_value = v)) := by
  induction l with
  | nil => simp [sortByValueDesc]
  | cons x xs ih =>
    simp only [sortByValueDesc, filter_insertByValueDesc, ih]
    by_cases hx : x.current_value = v <;> simp [List.filter_cons, hx]

end Lemmas

section ListLemmas

variable {K : Type}

/-! Lemmas about duplicate removal by asset symbol. -/

lemma dedupByAsset_nodup_aux (l : List (Holding K)) :
    ∀ seen : List String,
      (((dedupByAsset l seen).map (fun h => h.asset)).Nodup) ∧
        ∀ a ∈ (dedupByAsset l seen).map (fun h => h.asset), a ∉ seen := by
  induction l with
  | nil => intro seen; simp [dedupByAsset]
  | cons h t ih =>
    intro seen
    by_cases hmem : h.asset ∈ seen
    · simpa [dedupByAsset, hmem] using ih seen
    · have iht := ih (h.asset :: seen)
      simp only [dedupByAsset, if_neg hmem, List.map_cons, List.nodup_cons, List.mem_cons]
      refine ⟨⟨?_, iht.1⟩, ?_⟩
      · intro hcontra
        exact iht.2 h.asset hcontra (List.mem_cons_self h.asset seen)
      · intro a ha
        rcases ha with rfl | ha
        · exact hmem
        · intro haseen
          exact iht.2 a ha (List.mem_cons_of_mem _ haseen)

lemma dedupByAsset_seen_drop (b : Holding K) (B : List (Holding K)) :
    ∀ (L : List (Holding K)) (seen : List String), b.asset ∈ seen →
      dedupByAsset (L ++ b :: B) seen = dedupByAsset (L ++ B) seen := by
  intro L
  induction L with
  | nil => intro seen hb; simp [dedupByAsset, hb]
  | cons a L ih =>
    intro seen hb
    by_cases ha : a.asset ∈ seen
    · simp [dedupByAsset, ha, ih seen hb]
    · simp [dedupByAsset, ha, ih (a.asset :: seen) (List.mem_cons_of_mem _ hb)]

lemma dedupByAsset_drop (b : Holding K) (B : List (Holding K)) :
    ∀ (A : List (Holding K)) (seen : List String),
      b.asset ∈ A.map (fun h => h.asset) →
      dedupByAsset (A ++ b :: B) seen = dedupByAsset (A ++ B) seen := by
  intro A
  induction A with
  | nil => intro seen hb; simp at hb
  | cons a A ih =>
    intro seen hb
    rw [List.map_cons] at hb
    rcases List.mem_cons.mp hb with heq | hmem
    · by_cases ha : a.asset ∈ seen
      · have hbseen : b.asset ∈ seen := by rw [heq]; exact ha
        simpa [dedupByAsset, ha] using
          dedupByAsset_seen_drop b B A seen hbseen
      · have hbseen : b.asset ∈ a.asset :: seen := by
          rw [heq]
          exact List.mem_cons_self a.asset seen
        simpa [dedupByAsset, ha] using
          dedupByAsset_seen_drop b B A (a.asset :: seen) hbseen
    · by_cases ha : a.asset ∈ seen
      · simp [dedupByAsset, ha, ih seen hmem]
      · simp [dedupByAsset, ha, ih (a.asset :: seen) hmem]

/-! Lemmas about the retry loops. -/

lemma retryFetch_allFail {f : Nat → ReqOutcome K} (hf : ∀ n, (f n).isFail = true) :
    ∀ (n s : Nat), retryFetch f s n = (none, n) := by
  intro n
  induction n with
  | zero => intro s; rfl
  | succ n ih =>
    intro s
    have hs := hf s
    cases hfs : f s with
    | ok rows =>
      rw [hfs] at hs
      simp [ReqOutcome.isFail] at hs
    | httpError st => simp [retryFetch, hfs, ih (s + 1)]
    | netError => simp [retryFetch, hfs, ih (s + 1)]

lemma retryFetch_count_le (f : Nat → ReqOutcome K) :
    ∀ (n s : Nat), (retryFetch f s n).2 ≤ n := by
  intro n
  induction n with
  | zero => intro s; exact le_refl 0
  | succ n ih =>
    intro s
    cases hfs : f s with
    | ok rows => simp [retryFetch, hfs]
    | httpError st =>
      simp only [retryFetch, hfs]
      exact Nat.succ_le_succ (ih (s + 1))
    | netError =>
      simp only [retryFetch, hfs]
      exact Nat.succ_le_succ (ih (s + 1))

lemma retryFetch_stop {f : Nat → ReqOutcome K} {s : Nat} {rows : List (EarnRow K)}
    (h : f s = .ok rows) (n : Nat) :
    retryFetch f s (n + 1) = (some rows, 1) := by
  simp [retryFetch, h]

variable [LinearOrderedCommRing K]

/-! Total-failure lemmas for the Simple Earn fetchers. -/

lemma get_all_simple_earn_positions_allFail (ticker : String → Option K) (now : Nat)
    (eo : EndpointOutcomes K) (c : Cache K)
    (hf : ∀ n, (eo.flexible n).isFail = true) (hl : ∀ n, (eo.locked n).isFail = true) :
    get_all_simple_earn_positions ticker now eo c = ([], c) := by
  simp [get_all_simple_earn_positions, retryFetch_allFail hf 3 0,
    retryFetch_allFail hl 3 0]

lemma get_simple_earn_asset_positions_allFail (ticker : String → Option K) (now : Nat)
    (eo : EndpointOutcomes K) (asset : String) (c : Cache K)
    (hf : ∀ n, (eo.flexible n).isFail = true) (hl : ∀ n, (eo.locked n).isFail = true) :
    get_simple_earn_asset_positions ticker now eo asset c = ([], c) := by
  simp [get_simple_earn_asset_positions, retryFetch_allFail hf 2 0,
    retryFetch_allFail hl 2 0]

lemma targetedSearch_allFail (ticker : String → Option K) (now : Nat)
    (targeted : String → EndpointOutcomes K)
    (h : ∀ a n, ((targeted a).flexible n).isFail = true ∧
      ((targeted a).locked n).isFail = true) :
    ∀ (L : List String) (c : Cache K), targetedSearch ticker now targeted L c = ([], c) := by
  intro L
  induction L with
  | nil => intro c; rfl
  | cons a L ih =>
    intro c
    simp [targetedSearch,
      get_simple_earn_asset_positions_allFail ticker now (targeted a) a c
        (fun n => (h a n).1) (fun n => (h a n).2),
      ih c]

lemma get_earn_data_allFail (ticker : String → Option K) (now : Nat)
    (bulk : EndpointOutcomes K) (targeted : String → EndpointOutcomes K) (c : Cache K)
    (hbf : ∀ n, (bulk.flexible n).isFail = true)
    (hbl : ∀ n, (bulk.locked n).isFail = true)
    (ht : ∀ a n, ((targeted a).flexible n).isFail = true ∧
      ((targeted a).locked n).isFail = true) :
    get_earn_data ticker now bulk targeted c = ([], c) := by
  simp [get_earn_data,
    get_all_simple_earn_positions_allFail ticker now bulk c hbf hbl,
    targetedSearch_allFail ticker now targeted ht, dedupByAsset]

end ListLemmas

/-! Claim theorems. -/

/-- Claim C1 (amended): deduplication by asset symbol is applied only
within the Simple Earn silo — the list returned by `_get_earn_data`
contains at most one holding per asset symbol; the final portfolio may
still contain one entry from each silo for the same symbol. -/
theorem c1_earn_dedup_invariant {K : Type} [LinearOrderedCommRing K]
    (ticker : String → Option K) (now : Nat) (bulk : EndpointOutcomes K)
    (targeted : String → EndpointOutcomes K) (c : Cache K) :
    (((get_earn_data ticker now bulk targeted c).1.map (fun h => h.asset)).Nodup) :=
  (dedupByAsset_nodup_aux _ _).1

/-- Claim C1 counterexample: when the spot wallet holds 1 BTC and bulk
Simple Earn discovery reports a BTC position of amount 2, the final list
returned by `get_portfolio_data` contains two entries with the asset
symbol BTC — the claimed cross-silo deduplication does not happen. -/
theorem c1_counterexample_cross_silo_duplicate :
    ((get_portfolio_data tickerAll100 0 (some spotBTC) bulkBTCOnly targetedFail []).map
        (fun h => h.asset) = ["BTC", "BTC"]) ∧
      ¬ ((get_portfolio_data tickerAll100 0 (some spotBTC) bulkBTCOnly targetedFail []).map
          (fun h => h.asset)).Nodup := by
  exact ⟨by decide, by decide⟩

/-- Claim C2 (amended): when both balance sources fail entirely,
`get_portfolio_data` returns the empty list; no exception is raised
(both `_get_spot_data` and `_get_earn_data` absorb every failure), and
no AggregationError exists — the empty-portfolio check lives in the
caller `main`. -/
theorem c2_total_failure_returns_empty {K : Type} [LinearOrderedCommRing K]
    (ticker : String → Option K) (now : Nat) (bulk : EndpointOutcomes K)
    (targeted : String → EndpointOutcomes K) (c : Cache K)
    (hbf : ∀ n, (bulk.flexible n).isFail = true)
    (hbl : ∀ n, (bulk.locked n).isFail = true)
    (ht : ∀ a n, ((targeted a).flexible n).isFail = true ∧
      ((targeted a).locked n).isFail = true) :
    get_portfolio_data ticker now none bulk targeted c = [] := by
  unfold get_portfolio_data portfolioBeforeSort
  simp [get_earn_data_allFail ticker now bulk targeted c hbf hbl ht, sortByValueDesc]

/-- Witness for C2 (amended) at a fully failing environment. -/
theorem c2_total_failure_returns_empty_witness :
    get_portfolio_data tickerAll100 0 none failEndpoints targetedFail [] = [] :=
  c2_total_failure_returns_empty tickerAll100 0 failEndpoints targetedFail []
    (fun _ => rfl) (fun _ => rfl) (fun _ _ => ⟨rfl, rfl⟩)

/-- Claim C2 counterexample: on total failure of both sources (spot
account fetch raises, every Simple Earn request fails on the network),
`get_portfolio_data` returns the empty list instead of raising: the code
does return the misleadingly empty portfolio the claim rules out. -/
theorem c2_counterexample_no_error_on_total_failure :
    get_portfolio_data tickerNone 0 none failEndpoints targetedFail [] = [] := by
  decide

/-- Claim C3: when price resolution fails on both the direct pair and
the two-hop bridge, `_get_current_price` returns the sentinel 0 (without
raising: it is a total function), and `_get_spot_data` then emits
nothing for that balance and continues with the rest of the batch. -/
theorem c3_unresolvable_price_skips_asset {K : Type} [LinearOrderedCommRing K]
    (ticker : String → Option K) (c : Cache K) (now : Nat) (b : Balance K)
    (rest : List (Balance K))
    (hfresh : cacheFresh c now b.asset = false)
    (hdirect : ticker (b.asset ++ "USDT") = none)
    (hbridge : ticker (b.asset ++ "BTC") = none ∨ ticker "BTCUSDT" = none) :
    (get_current_price ticker c now b.asset).1 = 0 ∧
      get_spot_data ticker now (b :: rest) c = get_spot_data ticker now rest c := by
  have hfetch : ∃ k, fetchPrice ticker c now b.asset = (0, c, k) := by
    rcases hbridge with h1 | h2
    · exact ⟨2, by simp [fetchPrice, hdirect, h1]⟩
    · cases hb : ticker (b.asset ++ "BTC") with
      | none => exact ⟨2, by simp [fetchPrice, hdirect, hb]⟩
      | some bp => exact ⟨3, by simp [fetchPrice, hdirect, hb, h2]⟩
  have hgp : ∃ k, get_current_price ticker c now b.asset = (0, c, k) := by
    obtain ⟨k, hk⟩ := hfetch
    refine ⟨k, ?_⟩
    unfold get_current_price
    cases hcl : cacheLookup c b.asset with
    | none => exact hk
    | some pt =>
      obtain ⟨q, t⟩ := pt
      have hfresh' : ¬ (now - t < 300) := by
        unfold cacheFresh at hfresh
        rw [hcl] at hfresh
        simpa using hfresh
      simp [hfresh', hk]
  obtain ⟨k, hk⟩ := hgp
  refine ⟨by rw [hk], ?_⟩
  by_cases hld : b.asset.data.take 2 = ['L', 'D']
  · simp [get_spot_data, hld]
  · by_cases htot : 0 < b.free + b.locked
    · simp [get_spot_data, hld, htot, hk]
    · simp [get_spot_data, hld, htot]

/-- Witness for C3: an asset with no quoted pair at all resolves to 0
and is excluded while the batch goes on. -/
theorem c3_unresolvable_price_skips_asset_witness :
    (get_current_price tickerNone [] 0 "XYZ").1 = 0 ∧
      get_spot_data tickerNone 0 [{ asset := "XYZ", free := 1, locked := 0 }] [] =
        get_spot_data tickerNone 0 [] [] :=
  c3_unresolvable_price_skips_asset tickerNone [] 0
    { asset := "XYZ", free := 1, locked := 0 } [] (by decide) (by decide)
    (Or.inl (by decide))

/-- Claim C4: a cache entry younger than 300 seconds at lookup time is
returned verbatim by `_get_current_price`, with the cache unchanged and
zero network calls. -/
theorem c4_cache_hit_no_network {K : Type} [LinearOrderedCommRing K]
    (ticker : String → Option K) (c : Cache K) (now : Nat) (asset : String)
    (p : K) (t : Nat) (hc : cacheLookup c asset = some (p, t)) (ht : now - t < 300) :
    get_current_price ticker c now asset = (p, c, 0) := by
  simp [get_current_price, hc, ht]

/-- Witness for C4: a BTC cache entry of age 10 seconds is returned
verbatim with zero network calls. -/
theorem c4_cache_hit_no_network_witness :
    get_current_price tickerNone [("BTC", 5, 10)] 20 "BTC" = (5, [("BTC", 5, 10)], 0) :=
  c4_cache_hit_no_network tickerNone [("BTC", 5, 10)] 20 "BTC" 5 10 (by decide) (by decide)

/-- Claim C5: when the direct pair lookup fails but both bridge hops
succeed, `_get_current_price` returns exactly the product of the
asset-to-bridge price and the bridge-to-settlement price; when either
hop fails, the whole two-hop resolution fails and yields the sentinel 0. -/
theorem c5_bridge_price_product {K : Type} [LinearOrderedCommRing K]
    (ticker : String → Option K) (c : Cache K) (now : Nat) (asset : String)
    (hfresh : cacheFresh c now asset = false)
    (hdirect : ticker (asset ++ "USDT") = none) :
    (∀ bp bu, ticker (asset ++ "BTC") = some bp → ticker "BTCUSDT" = some bu →
        (get_current_price ticker c now asset).1 = bp * bu) ∧
      ((ticker (asset ++ "BTC") = none ∨ ticker "BTCUSDT" = none) →
        (get_current_price ticker c now asset).1 = 0) := by
  have hgp : get_current_price ticker c now asset = fetchPrice ticker c now asset := by
    unfold get_current_price
    cases hcl : cacheLookup c asset with
    | none => rfl
    | some pt =>
      obtain ⟨q, t⟩ := pt
      have hfresh' : ¬ (now - t < 300) := by
        unfold cacheFresh at hfresh
        rw [hcl] at hfresh
        simpa using hfresh
      simp [hfresh']
  constructor
  · intro bp bu hb hu
    rw [hgp]
    simp [fetchPrice, hdirect, hb, hu]
  · intro hfail
    rw [hgp]
    rcases hfail with h1 | h2
    · simp [fetchPrice, hdirect, h1]
    · cases hb : ticker (asset ++ "BTC") with
      | none => simp [fetchPrice, hdirect, hb]
      | some bp => simp [fetchPrice, hdirect, hb, h2]

/-- Witness for C5: with XYZBTC at 3 and BTCUSDT at 7 and no direct
pair, the resolved price is 3 * 7. -/
theorem c5_bridge_price_product_witness :
    (get_current_price tickerBridge [] 0 "XYZ").1 = 3 * 7 :=
  (c5_bridge_price_product tickerBridge [] 0 "XYZ" (by decide) (by decide)).1 3 7
    (by decide) (by decide)

/-- Claim C6: the reconciliation step of `_get_earn_data` concatenates
Strategy A results before Strategy B results and removes duplicates by
asset symbol keeping the first occurrence, so a Strategy B entry whose
asset Strategy A already reported is dropped; on the spec's example,
A = [BTC:1, ETH:2] and B = [ETH:5, SOL:3] merge to [BTC:1, ETH:2, SOL:3]. -/
theorem c6_reconciliation_first_wins :
    (∀ (K : Type) (A B : List (Holding K)) (b : Holding K) (seen : List String),
        b.asset ∈ A.map (fun h => h.asset) →
        dedupByAsset (A ++ b :: B) seen = dedupByAsset (A ++ B) seen) ∧
      dedupByAsset ([exH "BTC" 1, exH "ETH" 2] ++ [exH "ETH" 5, exH "SOL" 3]) [] =
        [exH "BTC" 1, exH "ETH" 2, exH "SOL" 3] := by
  constructor
  · intro K A B b seen hb
    exact dedupByAsset_drop b B A seen hb
  · decide

/-- Witness for C6: a later BTC entry is dropped when BTC was already
reported. -/
theorem c6_reconciliation_first_wins_witness :
    dedupByAsset ([exH "BTC" 1] ++ exH "BTC" 7 :: []) [] =
      dedupByAsset ([exH "BTC" 1] ++ []) [] :=
  c6_reconciliation_first_wins.1 ℤ [exH "BTC" 1] [] (exH "BTC" 7) [] (by decide)

/-- Claim C7: the final portfolio is sorted by computed value in
descending order (every adjacent pair satisfies value[i] >= value[i+1]),
and the sort is stable: the entries of any fixed value appear in the
same order as in the pre-sort list. -/
theorem c7_sorted_descending_stable {K : Type} [LinearOrderedCommRing K]
    (ticker : String → Option K) (now : Nat) (account : Option (List (Balance K)))
    (bulk : EndpointOutcomes K) (targeted : String → EndpointOutcomes K) (c : Cache K) :
    List.Chain' (fun a b => b.current_value ≤ a.current_value)
        (get_portfolio_data ticker now account bulk targeted c) ∧
      ∀ v : K,
        (get_portfolio_data ticker now account bulk targeted c).filter
            (fun h => decide (h.current_value = v)) =
          (portfolioBeforeSort ticker now account bulk targeted c).filter
            (fun h => decide (h.current_value = v)) := by
  constructor
  · exact (pairwise_sortByValueDesc (portfolioBeforeSort ticker now account bulk targeted c)).chain'
  · intro v
    exact filter_sortByValueDesc v (portfolioBeforeSort ticker now account bulk targeted c)

/-- Claim C8: the bulk-discovery retry loop makes at most 3 attempts per
product-type endpoint and the targeted per-asset loop at most 2, and a
200 response stops the loop immediately (no retry after success; the
loop retries only on the failure outcomes). -/
theorem c8_retry_attempt_bounds {K : Type} [LinearOrderedCommRing K]
    (f : Nat → ReqOutcome K) (s : Nat) (rows : List (EarnRow K)) :
    ((retryFetch f s 3).2 ≤ 3 ∧ (retryFetch f s 2).2 ≤ 2) ∧
      (f s = .ok rows → ∀ n, retryFetch f s (n + 1) = (some rows, 1)) :=
  ⟨⟨retryFetch_count_le f 3 s, retryFetch_count_le f 2 s⟩,
    fun h n => retryFetch_stop h n⟩

/-- Witness for C8: a first-attempt success makes exactly one call. -/
theorem c8_retry_attempt_bounds_witness :
    retryFetch (fun _ => (ReqOutcome.ok [] : ReqOutcome ℤ)) 0 3 = (some [], 1) :=
  (c8_retry_attempt_bounds (fun _ => (ReqOutcome.ok [] : ReqOutcome ℤ)) 0 []).2 rfl 2

/-- Claim C9: a spot balance whose asset symbol starts with "LD"
contributes nothing to the spot holdings, whatever its quantity and
whatever the ticker oracle answers, and no holding emitted by
`_get_spot_data` ever carries an LD-prefixed symbol. -/
theorem c9_ld_balances_never_reported {K : Type} [LinearOrderedCommRing K]
    (ticker : String → Option K) (now : Nat) (c : Cache K) :
    (∀ (b : Balance K) (rest : List (Balance K)), b.asset.data.take 2 = ['L', 'D'] →
        get_spot_data ticker now (b :: rest) c = get_spot_data ticker now rest c) ∧
      ∀ (bs : List (Balance K)) (c' : Cache K) (h : Holding K),
        h ∈ (get_spot_data ticker now bs c').1 → ¬ h.asset.data.take 2 = ['L', 'D'] := by
  constructor
  · intro b rest hld
    simp [get_spot_data, hld]
  · intro bs
    induction bs with
    | nil =>
      intro c' h hh
      simp [get_spot_data] at hh
    | cons b rest ih =>
      intro c' h hh
      by_cases hld : b.asset.data.take 2 = ['L', 'D']
      · simp only [get_spot_data, if_pos hld] at hh
        exact ih c' h hh
      · simp only [get_spot_data, if_neg hld] at hh
        by_cases htot : 0 < b.free + b.locked
        · simp only [if_pos htot] at hh
          by_cases hpr : 0 < (get_current_price ticker c' now b.asset).1
          · simp only [if_pos hpr, List.mem_cons] at hh
            rcases hh with rfl | hh
            · simpa [mkSpotHolding] using hld
            · exact ih _ h hh
          · simp only [if_neg hpr] at hh
            exact ih _ h hh
        · simp only [if_neg htot] at hh
          exact ih _ h hh

/-- Witness for C9: an LDO balance of 5 units is skipped even though
every pair trades at 100. -/
theorem c9_ld_balances_never_reported_witness :
    get_spot_data tickerAll100 0 [{ asset := "LDO", free := 5, locked := 0 }] [] =
      get_spot_data tickerAll100 0 [] [] :=
  (c9_ld_balances_never_reported tickerAll100 0 []).1
    { asset := "LDO", free := 5, locked := 0 } [] (by decide)

/-- Claim C10: inside bulk Simple Earn discovery, total failure of one
product-type endpoint never discards the other endpoint's results — the
operation still returns exactly the positions obtained from the
endpoint that succeeded. -/
theorem c10_endpoint_failure_isolated {K : Type} [LinearOrderedCommRing K]
    (ticker : String → Option K) (now : Nat) (eo : EndpointOutcomes K) (c : Cache K) :
    ((∀ n, (eo.flexible n).isFail = true) →
        get_all_simple_earn_positions ticker now eo c =
          (match (retryFetch eo.locked 0 3).1 with
            | some rows => processRows ticker now "Locked" (fun row => row.asset) rows c
            | none => ([], c))) ∧
      ((∀ n, (eo.locked n).isFail = true) →
        get_all_simple_earn_positions ticker now eo c =
          (match (retryFetch eo.flexible 0 3).1 with
            | some rows => processRows ticker now "Flexible" (fun row => row.asset) rows c
            | none => ([], c))) := by
  constructor
  · intro hf
    simp only [get_all_simple_earn_positions, retryFetch_allFail hf 3 0]
    cases hr : (retryFetch eo.locked 0 3).1 with
    | none => simp
    | some rows => simp
  · intro hl
    simp only [get_all_simple_earn_positions, retryFetch_allFail hl 3 0]
    cases hr : (retryFetch eo.flexible 0 3).1 with
    | none => simp
    | some rows => simp

/-- Witness for C10: with the flexible endpoint always failing and the
locked endpoint reporting one ETH position, bulk discovery returns
exactly the locked endpoint's positions. -/
theorem c10_endpoint_failure_isolated_witness :
    get_all_simple_earn_positions tickerAll100 0 flexFailEO [] =
      (match (retryFetch flexFailEO.locked 0 3).1 with
        | some rows => processRows tickerAll100 0 "Locked" (fun row => row.asset) rows []
        | none => ([], [])) :=
  (c10_endpoint_failure_isolated tickerAll100 0 flexFailEO []).1 (fun _ => rfl)

end CryptoPortfolio
